import Mathlib

/-!
Verification of the keyed sender cache with ordered teardown implemented by
`ServiceBusService` (src/lib/service-bus/services/service-bus.service.ts).

The embedding models the service's one piece of shared mutable state — the
`senders : Map<string, ServiceBusSender>` — as an association list from keys
to sender identifiers, together with ghost instrumentation recording every
invocation of `client.createSender` (the Connection's channel-opening
capability).  Senders are identified by the order of their creation
(`nextId`), which mirrors object identity of the JavaScript sender objects:
two lookups return the same sender instance iff they return the same id.

The batching loop of `sendBatch` is embedded over an abstract message-size
function: `tryAddMessage` succeeds exactly when the batch's accumulated size
plus the incoming message's size stays within `maxSize`, matching the
capacity-bounded `ServiceBusMessageBatch` of the SDK.  The dispatch trace (the
list of batches passed to `sender.sendMessages`, in order) is the observable
output.

Teardown (`onModuleDestroy`) is embedded with an environment verdict for each
`close()` call, so that both the all-successful run and a failing close can be
examined.  The TypeScript method performs no write to `this.senders`, hence
the resulting service state carries the map unchanged.
-/

namespace NestKit

/-- State of `ServiceBusService`: the `senders` map (insertion-ordered
association list, as a JavaScript `Map`), the identity to be given to the
next sender `client.createSender` produces, and the ghost trace of keys
passed to `client.createSender`, in call order. -/
structure CacheState where
  senders : List (String × Nat)
  nextId : Nat
  createTrace : List String
deriving DecidableEq, Repr

/-- The service starts with an empty map and no creation performed. -/
def initState : CacheState := ⟨[], 0, []⟩

/-- `Map.get` on an association list: first entry with the given key. -/
def lookup : List (String × Nat) → String → Option Nat
  | [], _ => none
  | (k, v) :: rest, key => if k = key then some v else lookup rest key

/-- Number of occurrences of `a` in a list. -/
def countOcc {α : Type} [DecidableEq α] (a : α) : List α → Nat
  | [] => 0
  | x :: xs => (if x = a then 1 else 0) + countOcc a xs

/-- `ServiceBusService.getSender`, with a fallible client: `createOk k`
tells whether `client.createSender(k)` succeeds.  On a cache miss the
creation is attempted (recorded in `createTrace`); if it throws, `Map.set`
is never executed and the exception propagates with the map unchanged
(`Except.error` carries the service state at the moment of the throw). -/
def getSender (createOk : String → Bool) (s : CacheState) (k : String) :
    Except CacheState (Nat × CacheState) :=
  match lookup s.senders k with
  | some id => Except.ok (id, s)
  | none =>
    if createOk k then
      Except.ok (s.nextId,
        { senders := s.senders ++ [(k, s.nextId)],
          nextId := s.nextId + 1,
          createTrace := s.createTrace ++ [k] })
    else
      Except.error { s with createTrace := s.createTrace ++ [k] }

/-- `ServiceBusService.getSender` under a never-failing client: returns the
sender used and the successor state. -/
def getSenderOk (s : CacheState) (k : String) : Nat × CacheState :=
  match lookup s.senders k with
  | some id => (id, s)
  | none =>
    (s.nextId,
      { senders := s.senders ++ [(k, s.nextId)],
        nextId := s.nextId + 1,
        createTrace := s.createTrace ++ [k] })

/-- The fallible embedding agrees with the total one when creation
always succeeds. -/
theorem getSender_allOk (s : CacheState) (k : String) :
    getSender (fun _ => true) s k = Except.ok (getSenderOk s k) := by
  unfold getSender getSenderOk
  cases lookup s.senders k <;> simp

/-- The public operations of `ServiceBusService` that resolve a sender:
`send`, `sendBatch`, `schedule`, `cancelScheduled`.  Payloads are irrelevant
to the cache behaviour and omitted. -/
inductive Op
  | send (key : String)
  | sendBatchOp (key : String)
  | schedule (key : String)
  | cancelScheduled (key : String)
deriving DecidableEq, Repr

/-- The `queueOrTopic` argument of an operation. -/
def Op.key : Op → String
  | send k => k
  | sendBatchOp k => k
  | schedule k => k
  | cancelScheduled k => k

/-- One operation: resolve the sender via `getSender` (never-failing client);
the delegation to the sender touches no service state.  Returns the successor
state and the sender instance the operation used. -/
def runOp (s : CacheState) (op : Op) : CacheState × Nat :=
  ((getSenderOk s op.key).2, (getSenderOk s op.key).1)

/-- A sequence of operations: final state, plus the trace of
(key, sender used) for each operation in order. -/
def runOps : CacheState → List Op → CacheState × List (String × Nat)
  | s, [] => (s, [])
  | s, op :: rest =>
    let r := runOp s op
    let rr := runOps r.1 rest
    (rr.1, (op.key, r.2) :: rr.2)

/-- Environment verdict on a delegated dispatch call
(`sender.sendMessages` / `scheduleMessages` / `cancelScheduledMessages`):
the underlying service accepts or rejects it. -/
inductive DispatchOutcome
  | accepted
  | rejected
deriving DecidableEq, Repr

/-- A full dispatch operation: resolve the sender, then delegate; the
delegation's outcome is the environment's verdict and is returned to the
caller unchanged — the method bodies never touch `this.senders` after the
`getSender` call. -/
def dispatchOp (outcome : DispatchOutcome) (s : CacheState) (op : Op) :
    (CacheState × Nat) × DispatchOutcome :=
  (runOp s op, outcome)

/-- `ServiceBusMessageOptions`: optional metadata attached to a message.
Application-property values (`string | number | boolean`) are abstracted by
the type parameter `π`. -/
structure ServiceBusMessageOptions (π : Type) where
  messageId : Option String
  correlationId : Option String
  contentType : Option String
  subject : Option String
  applicationProperties : Option π
deriving DecidableEq, Repr

/-- A `ServiceBusMessage` as built by the service: the payload (`β`) plus the
optional metadata fields. -/
structure SBMessage (β π : Type) where
  body : β
  messageId : Option String
  correlationId : Option String
  contentType : Option String
  subject : Option String
  applicationProperties : Option π
deriving DecidableEq, Repr

/-- `ServiceBusService.buildMessage`: wraps the body, copying each field of
the (possibly absent) options object via optional chaining
(`options?.messageId` is `undefined` when `options` is). -/
def buildMessage {β π : Type} (body : β)
    (options : Option (ServiceBusMessageOptions π)) : SBMessage β π :=
  { body := body
    messageId := options.bind ServiceBusMessageOptions.messageId
    correlationId := options.bind ServiceBusMessageOptions.correlationId
    contentType := options.bind ServiceBusMessageOptions.contentType
    subject := options.bind ServiceBusMessageOptions.subject
    applicationProperties :=
      options.bind ServiceBusMessageOptions.applicationProperties }

/-- `ServiceBusMessageBatch.tryAddMessage`: the message is added iff the
batch's accumulated size plus the message's size stays within the batch's
capacity `maxSize`; on success the grown batch is returned, on failure the
batch is left untouched and `false` is reported (here: `none`). -/
def tryAddMessage {β π : Type} (msgSize : SBMessage β π → Nat) (maxSize : Nat)
    (batch : List (SBMessage β π)) (m : SBMessage β π) :
    Option (List (SBMessage β π)) :=
  if (batch.map msgSize).sum + msgSize m ≤ maxSize then
    some (batch ++ [m])
  else
    none

/-- The `for (const body of bodies)` loop of `ServiceBusService.sendBatch`,
carrying the current batch.  When `tryAddMessage` fails, the current batch is
dispatched (`sender.sendMessages(batch)`), a fresh batch is created and the
message is offered to it with the boolean result of that second
`tryAddMessage` discarded — exactly as in the source, where a message not
fitting the fresh batch is silently lost.  Returns the list of batches
dispatched inside the loop (in order) and the batch in hand at loop exit. -/
def sendBatchGo {β π : Type} (msgSize : SBMessage β π → Nat) (maxSize : Nat)
    (options : Option (ServiceBusMessageOptions π)) :
    List β → List (SBMessage β π) →
    List (List (SBMessage β π)) × List (SBMessage β π)
  | [], batch => ([], batch)
  | body :: rest, batch =>
    let message := buildMessage body options
    match tryAddMessage msgSize maxSize batch message with
    | some grown => sendBatchGo msgSize maxSize options rest grown
    | none =>
      let fresh := (tryAddMessage msgSize maxSize [] message).getD []
      let r := sendBatchGo msgSize maxSize options rest fresh
      (batch :: r.1, r.2)

/-- `ServiceBusService.sendBatch`: run the loop starting from the freshly
created empty batch, then dispatch the final batch iff `batch.count > 0`.
The value is the full dispatch trace: the batches passed to
`sender.sendMessages`, in order. -/
def sendBatch {β π : Type} (msgSize : SBMessage β π → Nat) (maxSize : Nat)
    (options : Option (ServiceBusMessageOptions π)) (bodies : List β) :
    List (List (SBMessage β π)) :=
  let r := sendBatchGo msgSize maxSize options bodies []
  if r.2.length > 0 then r.1 ++ [r.2] else r.1

/-- Observable close calls issued during `onModuleDestroy`:
`sender.close()` on the channel with the given identity, or
`client.close()` on the Connection. -/
inductive CloseEvent
  | channel (id : Nat)
  | connection
deriving DecidableEq, Repr

/-- The `for (const sender of this.senders.values())` loop of
`onModuleDestroy`: close each sender in map order; a failing `close()`
(per the environment verdict `closeOk`) rejects the awaited promise, which
aborts the loop and the method.  Returns the close calls issued and whether
the loop ran to completion. -/
def closeSenders (closeOk : Nat → Bool) : List Nat → List CloseEvent × Bool
  | [] => ([], true)
  | id :: rest =>
    if closeOk id then
      let r := closeSenders closeOk rest
      (CloseEvent.channel id :: r.1, r.2)
    else
      ([CloseEvent.channel id], false)

/-- Result of `onModuleDestroy`: the close calls issued in order, whether the
method completed without a rejection, and the service state afterwards. -/
structure ShutdownResult where
  events : List CloseEvent
  ok : Bool
  state : CacheState
deriving DecidableEq, Repr

/-- `ServiceBusService.onModuleDestroy`: close every cached sender in map
order, then close the client.  `connOk` is the environment's verdict on
`client.close()`.  The method body contains no write to `this.senders`, so
the service state is returned unchanged. -/
def onModuleDestroy (closeOk : Nat → Bool) (connOk : Bool) (s : CacheState) :
    ShutdownResult :=
  let r := closeSenders closeOk (s.senders.map Prod.snd)
  { events := if r.2 then r.1 ++ [CloseEvent.connection] else r.1
    ok := if r.2 then connOk else false
    state := s }

/-! ### Basic lemmas about the association list and the occurrence count -/

theorem lookup_append_right (l : List (String × Nat)) (l2 : List (String × Nat))
    (k : String) (id : Nat) (h : lookup l k = some id) :
    lookup (l ++ l2) k = some id := by
  induction l with
  | nil => simp [lookup] at h
  | cons p rest ih =>
    obtain ⟨pk, pv⟩ := p
    by_cases hk : pk = k
    · simp [lookup, hk] at h ⊢; exact h
    · simp [lookup, hk] at h ⊢; exact ih h

theorem lookup_append_singleton_self (l : List (String × Nat)) (k : String)
    (v : Nat) (h : lookup l k = none) :
    lookup (l ++ [(k, v)]) k = some v := by
  induction l with
  | nil => simp [lookup]
  | cons p rest ih =>
    obtain ⟨pk, pv⟩ := p
    by_cases hk : pk = k
    · simp [lookup, hk] at h
    · simp [lookup, hk] at h ⊢; exact ih h

theorem lookup_append_singleton_ne (l : List (String × Nat)) (j k : String)
    (v : Nat) (h : j ≠ k) :
    lookup (l ++ [(j, v)]) k = lookup l k := by
  induction l with
  | nil => simp [lookup, h]
  | cons p rest ih =>
    obtain ⟨pk, pv⟩ := p
    by_cases hk : pk = k
    · simp [lookup, hk]
    · simp [lookup, hk]; exact ih

theorem countOcc_append {α : Type} [DecidableEq α] (a : α) (l1 l2 : List α) :
    countOcc a (l1 ++ l2) = countOcc a l1 + countOcc a l2 := by
  induction l1 with
  | nil => simp [countOcc]
  | cons x xs ih => simp [countOcc, ih]; omega

theorem countOcc_singleton_self {α : Type} [DecidableEq α] (a : α) :
    countOcc a [a] = 1 := by
  simp [countOcc]

theorem countOcc_singleton_ne {α : Type} [DecidableEq α] (a b : α)
    (h : b ≠ a) : countOcc a [b] = 0 := by
  simp [countOcc, h]

/-! ### How one operation transforms the cache -/

theorem getSenderOk_hit (s : CacheState) (k : String) (id : Nat)
    (h : lookup s.senders k = some id) : getSenderOk s k = (id, s) := by
  simp [getSenderOk, h]

theorem getSenderOk_miss (s : CacheState) (k : String)
    (h : lookup s.senders k = none) :
    getSenderOk s k =
      (s.nextId,
        { senders := s.senders ++ [(k, s.nextId)],
          nextId := s.nextId + 1,
          createTrace := s.createTrace ++ [k] }) := by
  simp [getSenderOk, h]

/-- Once a key is cached, any operation leaves its entry intact, makes no
further creation for it, and — if the operation references that key — uses
the cached sender. -/
theorem runOp_present (s : CacheState) (op : Op) (k : String) (id : Nat)
    (h : lookup s.senders k = some id) :
    lookup (runOp s op).1.senders k = some id ∧
    countOcc k (runOp s op).1.createTrace = countOcc k s.createTrace ∧
    (op.key = k → (runOp s op).2 = id) := by
  unfold runOp
  cases hop : lookup s.senders op.key with
  | some j =>
    rw [getSenderOk_hit s op.key j hop]
    refine ⟨h, rfl, ?_⟩
    intro hk; rw [hk] at hop; rw [h] at hop; exact (Option.some_inj.mp hop).symm
  | none =>
    rw [getSenderOk_miss s op.key hop]
    have hne : op.key ≠ k := by
      intro hk; rw [hk, h] at hop; exact Option.noConfusion hop
    refine ⟨?_, ?_, ?_⟩
    · simpa using lookup_append_singleton_ne s.senders op.key k s.nextId hne ▸ h
    · simp [countOcc_append, countOcc_singleton_ne k op.key hne]
    · intro hk; exact absurd hk hne

/-- An operation on a different key leaves the lookup for `k` and the
creation count for `k` unchanged. -/
theorem runOp_other (s : CacheState) (op : Op) (k : String)
    (hne : op.key ≠ k) :
    lookup (runOp s op).1.senders k = lookup s.senders k ∧
    countOcc k (runOp s op).1.createTrace = countOcc k s.createTrace := by
  unfold runOp
  cases hop : lookup s.senders op.key with
  | some j => rw [getSenderOk_hit s op.key j hop]; exact ⟨rfl, rfl⟩
  | none =>
    rw [getSenderOk_miss s op.key hop]
    constructor
    · simpa using lookup_append_singleton_ne s.senders op.key k s.nextId hne
    · simp [countOcc_append, countOcc_singleton_ne k op.key hne]

/-- Running any sequence from a state where `k` is cached with sender `id`:
the entry survives, no creation for `k` is performed, and every operation on
`k` uses `id`. -/
theorem runOps_present (ops : List Op) (s : CacheState) (k : String)
    (id : Nat) (h : lookup s.senders k = some id) :
    lookup (runOps s ops).1.senders k = some id ∧
    countOcc k (runOps s ops).1.createTrace = countOcc k s.createTrace ∧
    ∀ e ∈ (runOps s ops).2, e.1 = k → e.2 = id := by
  induction ops generalizing s with
  | nil => exact ⟨h, rfl, by simp [runOps]⟩
  | cons op rest ih =>
    obtain ⟨h1, h2, h3⟩ := runOp_present s op k id h
    obtain ⟨g1, g2, g3⟩ := ih (runOp s op).1 h1
    refine ⟨?_, ?_, ?_⟩
    · simpa [runOps] using g1
    · simp only [runOps]; rw [g2, h2]
    · intro e he hk
      simp only [runOps, List.mem_cons] at he
      rcases he with he | he
      · rw [he] at hk ⊢; exact h3 hk
      · exact g3 e he hk

/-- Running any sequence from a state where `k` is absent, provided some
operation references `k`: `client.createSender` is invoked exactly once more
for `k`, and there is a single sender that every operation on `k` uses. -/
theorem runOps_fresh (ops : List Op) (s : CacheState) (k : String)
    (h : lookup s.senders k = none) (hk : ∃ op ∈ ops, op.key = k) :
    countOcc k (runOps s ops).1.createTrace = countOcc k s.createTrace + 1 ∧
    ∃ ch, ∀ e ∈ (runOps s ops).2, e.1 = k → e.2 = ch := by
  induction ops generalizing s with
  | nil => obtain ⟨op, hop, _⟩ := hk; simp at hop
  | cons op rest ih =>
    by_cases hopk : op.key = k
    · have hstep : runOp s op =
          ({ senders := s.senders ++ [(k, s.nextId)],
             nextId := s.nextId + 1,
             createTrace := s.createTrace ++ [k] }, s.nextId) := by
        unfold runOp
        rw [hopk, getSenderOk_miss s k h]
      have hlook : lookup (runOp s op).1.senders k = some s.nextId := by
        rw [hstep]; exact lookup_append_singleton_self s.senders k s.nextId h
      obtain ⟨g1, g2, g3⟩ := runOps_present rest (runOp s op).1 k s.nextId hlook
      constructor
      · simp only [runOps]
        rw [g2, hstep]
        simp [countOcc_append, countOcc_singleton_self]
      · refine ⟨s.nextId, ?_⟩
        intro e he hek
        simp only [runOps, List.mem_cons] at he
        rcases he with he | he
        · rw [he, hstep]
        · exact g3 e he hek
    · have hrest : ∃ o ∈ rest, Op.key o = k := by
        obtain ⟨o, ho, hok⟩ := hk
        rcases List.mem_cons.mp ho with rfl | ho'
        · exact absurd hok hopk
        · exact ⟨o, ho', hok⟩
      obtain ⟨o1, o2⟩ := runOp_other s op k hopk
      obtain ⟨g1, ch, g2⟩ := ih (runOp s op).1 (o1.trans h) hrest
      constructor
      · simp only [runOps]; rw [g1, o2]
      · refine ⟨ch, ?_⟩
        intro e he hek
        simp only [runOps, List.mem_cons] at he
        rcases he with he | he
        · rw [he] at hek; exact absurd hek hopk
        · exact g2 e he hek

/-- C1: for every key `k` and every finite sequence of resolve/dispatch
operations (send, sendBatch, schedule, cancelScheduled) that reference `k`,
interleaved arbitrarily with operations on other keys, the Connection's
channel-opening capability (`client.createSender`) is invoked exactly once
for `k`, and every operation on `k` uses the same sender instance. -/
theorem createSender_once_per_key (ops : List Op) (k : String)
    (h : ∃ op ∈ ops, op.key = k) :
    countOcc k (runOps initState ops).1.createTrace = 1 ∧
    ∃ ch, ∀ e ∈ (runOps initState ops).2, e.1 = k → e.2 = ch := by
  have := runOps_fresh ops initState k rfl h
  simpa [initState, countOcc] using this

/-- Witness for C1 at a concrete interleaved sequence. -/
theorem createSender_once_per_key_witness :
    countOcc "q"
      (runOps initState
        [Op.send "q", Op.send "p", Op.schedule "q",
         Op.sendBatchOp "q"]).1.createTrace = 1 ∧
    ∃ ch, ∀ e ∈ (runOps initState
        [Op.send "q", Op.send "p", Op.schedule "q",
         Op.sendBatchOp "q"]).2, e.1 = "q" → e.2 = ch :=
  createSender_once_per_key
    [Op.send "q", Op.send "p", Op.schedule "q", Op.sendBatchOp "q"] "q"
    ⟨Op.send "q", by simp, rfl⟩

/-- C9: dispatching an empty payload sequence via `sendBatch` triggers zero
batch-send calls. -/
theorem sendBatch_empty_noop {β π : Type} (msgSize : SBMessage β π → Nat)
    (maxSize : Nat) (options : Option (ServiceBusMessageOptions π)) :
    sendBatch msgSize maxSize options ([] : List β) = [] := by
  simp [sendBatch, sendBatchGo]

/-! ### The batching loop -/

theorem sum_map_one {γ : Type} (l : List γ) :
    (l.map (fun _ => (1 : Nat))).sum = l.length := by
  induction l with
  | nil => rfl
  | cons x xs ih => simp [ih]; omega

/-- What the loop dispatches plus what it holds is: the starting batch,
followed by exactly those built messages that fit an empty batch, in input
order — a message that fits the current batch is kept, and a message that
overflows it is kept in the fresh batch iff it fits an empty one. -/
theorem sendBatchGo_join {β π : Type} (msgSize : SBMessage β π → Nat)
    (maxSize : Nat) (options : Option (ServiceBusMessageOptions π))
    (bodies : List β) (batch : List (SBMessage β π)) :
    (sendBatchGo msgSize maxSize options bodies batch).1.flatten ++
      (sendBatchGo msgSize maxSize options bodies batch).2 =
    batch ++ (bodies.map (fun b => buildMessage b options)).filter
      (fun x => msgSize x ≤ maxSize) := by
  induction bodies generalizing batch with
  | nil => simp [sendBatchGo]
  | cons body rest ih =>
    by_cases hfit :
        (batch.map msgSize).sum + msgSize (buildMessage body options) ≤ maxSize
    · have hm : msgSize (buildMessage body options) ≤ maxSize :=
        le_trans (Nat.le_add_left _ _) hfit
      have htry : tryAddMessage msgSize maxSize batch (buildMessage body options)
          = some (batch ++ [buildMessage body options]) := by
        simp [tryAddMessage, hfit]
      simp only [sendBatchGo, htry]
      rw [ih (batch ++ [buildMessage body options])]
      simp [List.filter_cons, hm]
    · have htry : tryAddMessage msgSize maxSize batch (buildMessage body options)
          = none := by
        simp [tryAddMessage, hfit]
      simp only [sendBatchGo, htry]
      by_cases hm : msgSize (buildMessage body options) ≤ maxSize
      · have hfresh :
            (tryAddMessage msgSize maxSize [] (buildMessage body options)).getD []
              = [buildMessage body options] := by
          simp [tryAddMessage, hm]
        rw [hfresh, List.flatten_cons, List.append_assoc, ih]
        simp [List.filter_cons, hm]
      · have hfresh :
            (tryAddMessage msgSize maxSize [] (buildMessage body options)).getD []
              = [] := by
          simp [tryAddMessage, hm]
        rw [hfresh, List.flatten_cons, List.append_assoc, ih]
        simp [List.filter_cons, hm]

/-- The full dispatch trace of `sendBatch` carries exactly the built messages
that fit an empty batch, in input order. -/
theorem sendBatch_join {β π : Type} (msgSize : SBMessage β π → Nat)
    (maxSize : Nat) (options : Option (ServiceBusMessageOptions π))
    (bodies : List β) :
    (sendBatch msgSize maxSize options bodies).flatten =
    (bodies.map (fun b => buildMessage b options)).filter
      (fun x => msgSize x ≤ maxSize) := by
  have h := sendBatchGo_join msgSize maxSize options bodies []
  simp only [List.nil_append] at h
  unfold sendBatch
  by_cases hF : (sendBatchGo msgSize maxSize options bodies []).2.length > 0
  · simp only [hF, if_pos]
    rw [List.flatten_append]
    simpa using h
  · have hnil : (sendBatchGo msgSize maxSize options bodies []).2 = [] := by
      cases hx : (sendBatchGo msgSize maxSize options bodies []).2 with
      | nil => rfl
      | cons a l => rw [hx] at hF; simp at hF
    simp only [hF, if_neg, not_true_eq_false, Bool.not_eq_true]
    rw [← h, hnil]
    simp

/-- Loop invariant for unit-size messages and capacity `c`: every batch
dispatched inside the loop is exactly full, the batch in hand never exceeds
capacity and is non-empty as soon as anything was offered, and no message is
lost. -/
theorem sendBatchGo_unit {β π : Type} (c : Nat) (hc : 1 ≤ c)
    (options : Option (ServiceBusMessageOptions π)) (bodies : List β)
    (batch : List (SBMessage β π)) (hb : batch.length ≤ c) :
    (∀ x ∈ (sendBatchGo (fun _ => 1) c options bodies batch).1, x.length = c) ∧
    (sendBatchGo (fun _ => 1) c options bodies batch).2.length ≤ c ∧
    ((batch ≠ [] ∨ bodies ≠ []) →
      (sendBatchGo (fun _ => 1) c options bodies batch).2 ≠ []) ∧
    (sendBatchGo (fun _ => 1) c options bodies batch).1.length * c +
      (sendBatchGo (fun _ => 1) c options bodies batch).2.length =
      batch.length + bodies.length := by
  induction bodies generalizing batch with
  | nil =>
    refine ⟨by simp [sendBatchGo], by simpa [sendBatchGo] using hb, ?_, ?_⟩
    · intro h
      rcases h with h | h
      · simpa [sendBatchGo] using h
      · exact absurd rfl h
    · simp [sendBatchGo]
  | cons body rest ih =>
    by_cases hfit : batch.length + 1 ≤ c
    · have htry : tryAddMessage (fun _ => (1 : Nat)) c batch
          (buildMessage body options)
          = some (batch ++ [buildMessage body options]) := by
        simp [tryAddMessage, sum_map_one]; omega
      simp only [sendBatchGo, htry]
      have hb' : (batch ++ [buildMessage body options]).length ≤ c := by
        simpa using hfit
      obtain ⟨g1, g2, g3, g4⟩ := ih (batch ++ [buildMessage body options]) hb'
      refine ⟨g1, g2, fun _ => g3 (Or.inl (by simp)), ?_⟩
      rw [g4]; simp; omega
    · have htry : tryAddMessage (fun _ => (1 : Nat)) c batch
          (buildMessage body options) = none := by
        simp [tryAddMessage, sum_map_one]; omega
      have hbatch : batch.length = c := by omega
      have hfresh :
          (tryAddMessage (fun _ => (1 : Nat)) c [] (buildMessage body options)).getD []
            = [buildMessage body options] := by
        simp [tryAddMessage, hc]
      simp only [sendBatchGo, htry]
      rw [hfresh]
      obtain ⟨g1, g2, g3, g4⟩ := ih [buildMessage body options] (by simpa using hc)
      refine ⟨?_, g2, fun _ => g3 (Or.inl (by simp)), ?_⟩
      · intro x hx
        rcases List.mem_cons.mp hx with rfl | hx'
        · exact hbatch
        · exact g1 x hx'
      · have g4s : (sendBatchGo (fun _ => (1 : Nat)) c options rest
            [buildMessage body options]).1.length * c +
            (sendBatchGo (fun _ => (1 : Nat)) c options rest
              [buildMessage body options]).2.length = 1 + rest.length := by
          simpa using g4
        simp only [List.length_cons, Nat.succ_mul]
        omega

/-- C2: for capacity `c ≥ 1` and unit-size payloads (each fits in an empty
batch, packing tight), `sendBatch` issues exactly `⌈n/c⌉` batch-send calls,
every dispatched batch is non-empty, payloads are packed greedily in order
(the concatenation of the dispatched batches is the input sequence, every
batch dispatched before the last is exactly full), and no dispatched batch
exceeds capacity. -/
theorem sendBatch_packing {β π : Type} (c : Nat) (hc : 1 ≤ c)
    (options : Option (ServiceBusMessageOptions π)) (bodies : List β) :
    (sendBatch (fun _ => 1) c options bodies).length =
      (bodies.length + c - 1) / c ∧
    (∀ b ∈ sendBatch (fun _ => 1) c options bodies, b ≠ []) ∧
    (sendBatch (fun _ => 1) c options bodies).flatten =
      bodies.map (fun b => buildMessage b options) ∧
    (∀ b ∈ (sendBatch (fun _ => 1) c options bodies).dropLast,
      b.length = c) ∧
    (∀ b ∈ sendBatch (fun _ => 1) c options bodies, b.length ≤ c) := by
  obtain ⟨hfull, hle, hne, hcount⟩ :=
    sendBatchGo_unit c hc options bodies [] (by simp)
  have hjoin : (sendBatch (fun _ => 1) c options bodies).flatten =
      bodies.map (fun b => buildMessage b options) := by
    rw [sendBatch_join]
    apply List.filter_eq_self.mpr
    intro a _
    simpa using hc
  rcases eq_or_ne bodies ([] : List β) with rfl | hbne
  · have hgo : sendBatchGo (fun _ => (1 : Nat)) c options ([] : List β)
        ([] : List (SBMessage β π)) = ([], []) := rfl
    refine ⟨?_, ?_, hjoin, ?_, ?_⟩
    · simp only [sendBatch, hgo]
      simp only [List.length_nil, Nat.zero_add]
      rw [Nat.div_eq_of_lt (by omega)]
      simp
    · intro b hb
      simp [sendBatch, hgo] at hb
    · intro b hb
      simp [sendBatch, hgo] at hb
    · intro b hb
      simp [sendBatch, hgo] at hb
  · have hF : (sendBatchGo (fun _ => 1) c options bodies
        ([] : List (SBMessage β π))).2 ≠ [] := hne (Or.inr hbne)
    have hFpos : 0 < (sendBatchGo (fun _ => 1) c options bodies
        ([] : List (SBMessage β π))).2.length := List.length_pos.mpr hF
    have hsends : sendBatch (fun _ => 1) c options bodies =
        (sendBatchGo (fun _ => 1) c options bodies []).1 ++
          [(sendBatchGo (fun _ => 1) c options bodies []).2] := by
      simp [sendBatch, hFpos]
    refine ⟨?_, ?_, hjoin, ?_, ?_⟩
    · rw [hsends]
      simp only [List.length_append, List.length_singleton]
      simp only [List.length_nil, Nat.zero_add] at hcount
      have hFle : (sendBatchGo (fun _ => 1) c options bodies
          ([] : List (SBMessage β π))).2.length ≤ c := hle
      set q := (sendBatchGo (fun _ => 1) c options bodies
          ([] : List (SBMessage β π))).1.length with hq
      set f := (sendBatchGo (fun _ => 1) c options bodies
          ([] : List (SBMessage β π))).2.length with hf
      have h1 : bodies.length + c - 1 = (f - 1) + c + q * c := by omega
      rw [h1, Nat.add_mul_div_right _ _ (by omega : 0 < c),
        Nat.add_div_right _ (by omega : 0 < c),
        Nat.div_eq_of_lt (by omega : f - 1 < c)]
      omega
    · intro b hb
      rw [hsends] at hb
      rcases List.mem_append.mp hb with hb' | hb'
      · have := hfull b hb'
        intro hnil
        rw [hnil] at this
        simp at this
        omega
      · rw [List.mem_singleton.mp hb']
        exact hF
    · intro b hb
      rw [hsends, List.dropLast_concat] at hb
      exact hfull b hb
    · intro b hb
      rw [hsends] at hb
      rcases List.mem_append.mp hb with hb' | hb'
      · exact le_of_eq (hfull b hb')
      · rw [List.mem_singleton.mp hb']
        exact hle

/-- Witness for C2: capacity 2, payloads `[10, 11, 12]` — two dispatches,
`[10, 11]` then `[12]`. -/
theorem sendBatch_packing_witness :
    (sendBatch (fun _ => 1) 2 (none : Option (ServiceBusMessageOptions Unit))
        [10, 11, 12]).length = ([10, 11, 12].length + 2 - 1) / 2 ∧
    (∀ b ∈ sendBatch (fun _ => 1) 2
        (none : Option (ServiceBusMessageOptions Unit)) [10, 11, 12], b ≠ []) ∧
    (sendBatch (fun _ => 1) 2 (none : Option (ServiceBusMessageOptions Unit))
        [10, 11, 12]).flatten =
      [10, 11, 12].map (fun b => buildMessage b none) ∧
    (∀ b ∈ (sendBatch (fun _ => 1) 2
        (none : Option (ServiceBusMessageOptions Unit)) [10, 11, 12]).dropLast,
      b.length = 2) ∧
    (∀ b ∈ sendBatch (fun _ => 1) 2
        (none : Option (ServiceBusMessageOptions Unit)) [10, 11, 12],
      b.length ≤ 2) :=
  sendBatch_packing 2 (by decide) none [10, 11, 12]

/-- C5 counterexample: a payload whose message (size 2) cannot be added to a
freshly created empty batch of capacity 1 is NOT surfaced as an error:
`sendBatch` completes normally, dispatching the current — empty — batch
(one batch-send call carrying zero messages), and the payload appears in no
dispatched batch; it is silently dropped. -/
theorem oversized_payload_counterexample :
    sendBatch (fun _ : SBMessage Nat Unit => 2) 1 none [0] = [[]] ∧
    (sendBatch (fun _ : SBMessage Nat Unit => 2) 1 none [0]).flatten = [] := by
  constructor <;> rfl

/-- C5 amended: a payload that fails to be added to a freshly created empty
batch is silently dropped with no error surfaced and no retry — the full
dispatch trace carries exactly the built messages that fit an empty batch,
in input order; every dispatched message fits an empty batch. -/
theorem oversized_payload_dropped {β π : Type} (msgSize : SBMessage β π → Nat)
    (maxSize : Nat) (options : Option (ServiceBusMessageOptions π))
    (bodies : List β) :
    (sendBatch msgSize maxSize options bodies).flatten =
      (bodies.map (fun b => buildMessage b options)).filter
        (fun x => msgSize x ≤ maxSize) ∧
    ∀ msg ∈ (sendBatch msgSize maxSize options bodies).flatten,
      msgSize msg ≤ maxSize := by
  refine ⟨sendBatch_join msgSize maxSize options bodies, ?_⟩
  intro msg hmsg
  rw [sendBatch_join] at hmsg
  simpa using (List.mem_filter.mp hmsg).2

/-- C10: when an options object is supplied to `sendBatch`, every message in
every dispatched batch carries the identical option fields — the same
`messageId`, `correlationId`, `contentType`, `subject` and
`applicationProperties` as the supplied options. -/
theorem sendBatch_uniform_options {β π : Type} (msgSize : SBMessage β π → Nat)
    (maxSize : Nat) (bodies : List β) (o : ServiceBusMessageOptions π)
    (msg : SBMessage β π)
    (hmsg : msg ∈ (sendBatch msgSize maxSize (some o) bodies).flatten) :
    msg.messageId = o.messageId ∧
    msg.correlationId = o.correlationId ∧
    msg.contentType = o.contentType ∧
    msg.subject = o.subject ∧
    msg.applicationProperties = o.applicationProperties := by
  rw [sendBatch_join] at hmsg
  have hmem := List.mem_filter.mp hmsg
  obtain ⟨b, _, hb⟩ := List.mem_map.mp hmem.1
  rw [← hb]
  simp [buildMessage, Option.bind]

/-- Witness for C10: two payloads, capacity 2, a concrete options object. -/
theorem sendBatch_uniform_options_witness :
    (buildMessage 5 (some ⟨some "m", some "c", some "ct", some "s", some ()⟩)
        : SBMessage Nat Unit) ∈
      (sendBatch (fun _ => 1) 2
        (some ⟨some "m", some "c", some "ct", some "s", some ()⟩)
        [5, 6]).flatten ∧
    ((buildMessage 5 (some ⟨some "m", some "c", some "ct", some "s", some ()⟩)
        : SBMessage Nat Unit).messageId = some "m" ∧
     (buildMessage 5 (some ⟨some "m", some "c", some "ct", some "s", some ()⟩)
        : SBMessage Nat Unit).correlationId = some "c" ∧
     (buildMessage 5 (some ⟨some "m", some "c", some "ct", some "s", some ()⟩)
        : SBMessage Nat Unit).contentType = some "ct" ∧
     (buildMessage 5 (some ⟨some "m", some "c", some "ct", some "s", some ()⟩)
        : SBMessage Nat Unit).subject = some "s" ∧
     (buildMessage 5 (some ⟨some "m", some "c", some "ct", some "s", some ()⟩)
        : SBMessage Nat Unit).applicationProperties = some ()) :=
  ⟨by decide,
   sendBatch_uniform_options (fun _ => 1) 2 [5, 6]
     ⟨some "m", some "c", some "ct", some "s", some ()⟩
     (buildMessage 5 (some ⟨some "m", some "c", some "ct", some "s", some ()⟩))
     (by decide)⟩

/-! ### Shutdown -/

/-- Reachability invariant: the sender instances stored in the map are
exactly the instances created so far, `0, 1, …, nextId - 1`, in creation
order. -/
theorem runOp_values (s : CacheState) (op : Op)
    (h : s.senders.map Prod.snd = List.range s.nextId) :
    (runOp s op).1.senders.map Prod.snd = List.range (runOp s op).1.nextId := by
  unfold runOp
  cases hop : lookup s.senders op.key with
  | some j => rw [getSenderOk_hit s op.key j hop]; exact h
  | none =>
    rw [getSenderOk_miss s op.key hop]
    simp [h, List.range_succ]

theorem runOps_values (ops : List Op) (s : CacheState)
    (h : s.senders.map Prod.snd = List.range s.nextId) :
    (runOps s ops).1.senders.map Prod.snd =
      List.range (runOps s ops).1.nextId := by
  induction ops generalizing s with
  | nil => exact h
  | cons op rest ih =>
    simpa [runOps] using ih (runOp s op).1 (runOp_values s op h)

/-- When every `close()` succeeds, the loop closes the senders in map order
and completes. -/
theorem closeSenders_allOk (closeOk : Nat → Bool)
    (h : ∀ id, closeOk id = true) (l : List Nat) :
    closeSenders closeOk l = (l.map CloseEvent.channel, true) := by
  induction l with
  | nil => rfl
  | cons id rest ih => simp [closeSenders, h id, ih]

theorem countOcc_map_channel (i : Nat) (l : List Nat) :
    countOcc (CloseEvent.channel i) (l.map CloseEvent.channel) =
      countOcc i l := by
  induction l with
  | nil => rfl
  | cons x xs ih =>
    simp only [List.map_cons, countOcc, ih]
    by_cases hx : x = i
    · simp [hx]
    · simp [hx]

theorem countOcc_connection_map_channel (l : List Nat) :
    countOcc CloseEvent.connection (l.map CloseEvent.channel) = 0 := by
  induction l with
  | nil => rfl
  | cons x xs ih => simp [countOcc, ih]

theorem countOcc_range (i n : Nat) :
    countOcc i (List.range n) = if i < n then 1 else 0 := by
  induction n with
  | zero => simp [countOcc]
  | succ m ih =>
    rw [List.range_succ, countOcc_append, ih]
    rcases Nat.lt_trichotomy i m with hm | hm | hm
    · have h2 : m ≠ i := by omega
      rw [countOcc_singleton_ne i m h2]
      have hb : i < m + 1 := by omega
      simp [hm, hb]
    · subst hm
      rw [countOcc_singleton_self]
      simp
    · have h2 : m ≠ i := by omega
      rw [countOcc_singleton_ne i m h2]
      have ha : ¬i < m := by omega
      have hb : ¬i < m + 1 := by omega
      simp [ha, hb]

/-- C3: after a shutdown in which every close succeeds, every sender created
so far has had `close()` invoked exactly once, the Connection's close is
invoked exactly once, and it is the last close issued — after all channel
closes. -/
theorem shutdown_close_order (ops : List Op) (closeOk : Nat → Bool)
    (connOk : Bool) (hclose : ∀ id, closeOk id = true)
    (hconn : connOk = true) :
    (onModuleDestroy closeOk connOk (runOps initState ops).1).ok = true ∧
    (∀ id, id < (runOps initState ops).1.nextId →
      countOcc (CloseEvent.channel id)
        (onModuleDestroy closeOk connOk (runOps initState ops).1).events = 1) ∧
    countOcc CloseEvent.connection
      (onModuleDestroy closeOk connOk (runOps initState ops).1).events = 1 ∧
    (onModuleDestroy closeOk connOk (runOps initState ops).1).events.getLast?
      = some CloseEvent.connection := by
  set s := (runOps initState ops).1 with hs
  have hvals : s.senders.map Prod.snd = List.range s.nextId :=
    runOps_values ops initState rfl
  have hloop : closeSenders closeOk (List.range s.nextId) =
      ((List.range s.nextId).map CloseEvent.channel, true) :=
    closeSenders_allOk closeOk hclose _
  have hevents : (onModuleDestroy closeOk connOk s).events =
      (List.range s.nextId).map CloseEvent.channel ++ [CloseEvent.connection] := by
    simp [onModuleDestroy, hvals, hloop]
  have hok : (onModuleDestroy closeOk connOk s).ok = connOk := by
    simp [onModuleDestroy, hvals, hloop]
  refine ⟨hok.trans hconn, ?_, ?_, ?_⟩
  · intro id hid
    rw [hevents, countOcc_append, countOcc_map_channel, countOcc_range]
    simp [hid, countOcc_singleton_ne]
  · rw [hevents, countOcc_append, countOcc_connection_map_channel,
      countOcc_singleton_self]
  · rw [hevents]
    exact List.getLast?_concat _

/-- Witness for C3 with two distinct keys. -/
theorem shutdown_close_order_witness :
    (onModuleDestroy (fun _ => true) true
      (runOps initState [Op.send "a", Op.send "b"]).1).ok = true ∧
    (∀ id, id < (runOps initState [Op.send "a", Op.send "b"]).1.nextId →
      countOcc (CloseEvent.channel id)
        (onModuleDestroy (fun _ => true) true
          (runOps initState [Op.send "a", Op.send "b"]).1).events = 1) ∧
    countOcc CloseEvent.connection
      (onModuleDestroy (fun _ => true) true
        (runOps initState [Op.send "a", Op.send "b"]).1).events = 1 ∧
    (onModuleDestroy (fun _ => true) true
      (runOps initState [Op.send "a", Op.send "b"]).1).events.getLast?
      = some CloseEvent.connection :=
  shutdown_close_order [Op.send "a", Op.send "b"] (fun _ => true) true
    (fun _ => rfl) rfl

/-- C4 counterexample: two cached channels, the first `close()` fails — the
teardown aborts at once: the second channel is never attempted, the
Connection is never closed, and the first failure propagates. -/
theorem shutdown_abort_counterexample :
    (onModuleDestroy (fun id => id != 0) true
      (runOps initState [Op.send "a", Op.send "b"]).1).ok = false ∧
    (onModuleDestroy (fun id => id != 0) true
      (runOps initState [Op.send "a", Op.send "b"]).1).events
      = [CloseEvent.channel 0] ∧
    CloseEvent.channel 1 ∉
      (onModuleDestroy (fun id => id != 0) true
        (runOps initState [Op.send "a", Op.send "b"]).1).events ∧
    CloseEvent.connection ∉
      (onModuleDestroy (fun id => id != 0) true
        (runOps initState [Op.send "a", Op.send "b"]).1).events := by
  refine ⟨rfl, rfl, ?_, ?_⟩ <;> decide

/-- The loop stops at the first failing close: the senders before it are
closed, the failing one is attempted, and nothing further is issued. -/
theorem closeSenders_first_failure (closeOk : Nat → Bool) (l1 : List Nat)
    (i : Nat) (l2 : List Nat) (h1 : ∀ j ∈ l1, closeOk j = true)
    (hi : closeOk i = false) :
    closeSenders closeOk (l1 ++ i :: l2) =
      (l1.map CloseEvent.channel ++ [CloseEvent.channel i], false) := by
  induction l1 with
  | nil => simp [closeSenders, hi]
  | cons j rest ih =>
    have hj : closeOk j = true := h1 j (List.mem_cons_self j rest)
    have hrest : ∀ x ∈ rest, closeOk x = true :=
      fun x hx => h1 x (List.mem_cons_of_mem j hx)
    simp [closeSenders, hj, ih hrest]

/-- C4 amended: if a `close()` call on a cached channel fails, the teardown
sequence is aborted on the spot — the close calls issued are exactly those
for the channels before the failing one plus the failing attempt itself; the
remaining channels and the Connection are not attempted, and the failure
propagates to the caller. -/
theorem shutdown_aborts_on_close_failure (closeOk : Nat → Bool)
    (connOk : Bool) (s : CacheState) (l1 : List Nat) (i : Nat) (l2 : List Nat)
    (hsplit : s.senders.map Prod.snd = l1 ++ i :: l2)
    (h1 : ∀ j ∈ l1, closeOk j = true) (hi : closeOk i = false) :
    (onModuleDestroy closeOk connOk s).events =
      l1.map CloseEvent.channel ++ [CloseEvent.channel i] ∧
    (onModuleDestroy closeOk connOk s).ok = false := by
  have hloop := closeSenders_first_failure closeOk l1 i l2 h1 hi
  constructor <;> simp [onModuleDestroy, hsplit, hloop]

/-- Witness for C4 amended: the failure on the first of two channels. -/
theorem shutdown_aborts_on_close_failure_witness :
    (onModuleDestroy (fun id => id != 0) true
      (runOps initState [Op.send "a", Op.send "b"]).1).events =
      ([] : List Nat).map CloseEvent.channel ++ [CloseEvent.channel 0] ∧
    (onModuleDestroy (fun id => id != 0) true
      (runOps initState [Op.send "a", Op.send "b"]).1).ok = false :=
  shutdown_aborts_on_close_failure (fun id => id != 0) true
    (runOps initState [Op.send "a", Op.send "b"]).1 [] 0 [1]
    (by decide) (by intro j hj; simp at hj) rfl

/-- C6 counterexample: after a fully successful shutdown of a service that
had created a channel, the cache mapping still holds its entry — the map is
never cleared. -/
theorem cache_not_cleared_counterexample :
    (onModuleDestroy (fun _ => true) true
      (runOps initState [Op.send "a"]).1).state.senders = [("a", 0)] ∧
    (onModuleDestroy (fun _ => true) true
      (runOps initState [Op.send "a"]).1).state.senders ≠ [] := by
  refine ⟨by decide, by decide⟩

/-- C6 amended: shutdown closes the cached channels but leaves the
key-to-channel mapping untouched: the entries accumulated during operation
all remain after `onModuleDestroy`. -/
theorem shutdown_preserves_cache_entries (closeOk : Nat → Bool)
    (connOk : Bool) (s : CacheState) :
    (onModuleDestroy closeOk connOk s).state.senders = s.senders := rfl

/-- C7: if `client.createSender` fails for key `k` on a cache miss, the
failure propagates to the caller, exactly one creation attempt was made (no
retry), and the cache is exactly as before — in particular no entry for `k`
is stored. -/
theorem creation_failure_not_cached (createOk : String → Bool)
    (s : CacheState) (k : String) (hmiss : lookup s.senders k = none)
    (hfail : createOk k = false) :
    ∃ s', getSender createOk s k = Except.error s' ∧
      s'.senders = s.senders ∧
      s'.nextId = s.nextId ∧
      lookup s'.senders k = none ∧
      s'.createTrace = s.createTrace ++ [k] := by
  refine ⟨{ s with createTrace := s.createTrace ++ [k] }, ?_, rfl, rfl, hmiss, rfl⟩
  simp [getSender, hmiss, hfail]

/-- Witness for C7: creation fails on the empty cache. -/
theorem creation_failure_not_cached_witness :
    ∃ s', getSender (fun _ => false) initState "a" = Except.error s' ∧
      s'.senders = initState.senders ∧
      s'.nextId = initState.nextId ∧
      lookup s'.senders "a" = none ∧
      s'.createTrace = initState.createTrace ++ ["a"] :=
  creation_failure_not_cached (fun _ => false) initState "a" rfl rfl

/-- C8: a dispatch operation on a key whose channel is cached leaves the
cache exactly as it was and uses the cached channel, and the state and the
channel used are independent of whether the underlying service accepts or
rejects the delegated call — a dispatch failure never removes or replaces a
cached channel. -/
theorem dispatch_preserves_cache (outcome outcome' : DispatchOutcome)
    (s : CacheState) (op : Op) (ch : Nat)
    (h : lookup s.senders op.key = some ch) :
    (dispatchOp outcome s op).1.1 = s ∧
    (dispatchOp outcome s op).1.2 = ch ∧
    (dispatchOp outcome s op).1 = (dispatchOp outcome' s op).1 := by
  unfold dispatchOp runOp
  rw [getSenderOk_hit s op.key ch h]
  exact ⟨rfl, rfl, rfl⟩

/-- Witness for C8: a rejected send on a cached key changes nothing. -/
theorem dispatch_preserves_cache_witness :
    (dispatchOp DispatchOutcome.rejected
      (runOps initState [Op.send "a"]).1 (Op.send "a")).1.1 =
      (runOps initState [Op.send "a"]).1 ∧
    (dispatchOp DispatchOutcome.rejected
      (runOps initState [Op.send "a"]).1 (Op.send "a")).1.2 = 0 ∧
    (dispatchOp DispatchOutcome.rejected
      (runOps initState [Op.send "a"]).1 (Op.send "a")).1 =
      (dispatchOp DispatchOutcome.accepted
        (runOps initState [Op.send "a"]).1 (Op.send "a")).1 :=
  dispatch_preserves_cache DispatchOutcome.rejected DispatchOutcome.accepted
    (runOps initState [Op.send "a"]).1 (Op.send "a") 0 (by decide)

end NestKit
